import Mathlib

/- Formal model of the zeno-ai chat client's streaming ingestion and
conversation state engine, shallowly embedded from the TypeScript source:

* the SSE decode loop of `streamChat`        (frontend/src/lib/api/stream.ts)
* the Zustand chat store operations          (frontend/src/stores/chatStore.ts)
* the orchestrator `sendMessage`             (frontend/src/hooks, useStreamingResponse)
* the one-shot `generateImage` client        (frontend/src/lib/api/image.ts)

Modelling conventions:
* Text is `List Char`.  The byte-to-text step (`TextDecoder` with
  `stream: true`) is abstracted by quantifying over arbitrary partitions of
  the decoded text: the streaming decoder guarantees that the concatenation
  of the decoded chunks equals the decoding of the whole byte stream, so
  every realizable sequence of decoded chunks is such a partition.
* `JSON.parse` is an abstract parameter `parse : List Char → Option StreamChunk`
  (`none` models a parse exception, caught and logged by the source).
* The external collaborators (conversations API, image API, the SSE stream
  itself) are modelled by an `Env` oracle fixing the outcome of each call,
  and every outbound call is recorded in an ordered trace of `ExtCall`s.
* `createdAt` timestamps and local message ids are not modelled: no claim
  mentions them and they never influence control flow in the source. -/

/-- Message roles, from types/chat.ts (`MessageRole`). -/
inductive Role where
  | user
  | assistant
  | system
deriving DecidableEq, Repr

/-- Chat message, from types/chat.ts (`Message`); `image` is the optional
base64 payload. -/
structure Message where
  role : Role
  content : List Char
  image : Option (List Char) := none
deriving DecidableEq, Repr

/-- Decoded SSE event, from types/chat.ts (`StreamChunk`). -/
structure StreamChunk where
  content : List Char
  done : Bool
  error : Option (List Char) := none
deriving DecidableEq, Repr

/-- Conversation summary as held in the store's `conversations` cache. -/
structure ConvSummary where
  id : Int
  title : List Char
deriving DecidableEq, Repr

/-- Response of `generateImage`, from lib/api/image.ts
(`ImageGenerateResponse`). -/
structure GenResponse where
  image : List Char
  prompt : List Char
deriving DecidableEq, Repr

/-- State of the Zustand chat store (chatStore.ts `ChatState` data fields). -/
structure ChatState where
  messages : List Message
  isStreaming : Bool
  currentConversationId : Option Int
  conversations : List ConvSummary
  isLoadingConversations : Bool
deriving DecidableEq, Repr

/- ----------------------------------------------------------------
Transport decoder: the decode loop of `streamChat` (stream.ts lines 61-101).
---------------------------------------------------------------- -/

/-- Helper for `splitEvents`: prepend a character to the first fragment of a
split result (the result of splitting the rest of the text). -/
def mergeHead (c : Char) : List (List Char) → List (List Char)
  | [] => [[c]]
  | f :: fs => (c :: f) :: fs

/-- Model of JavaScript `buffer.split('\n\n')`: leftmost, non-overlapping
split of the text on the double-newline event delimiter.  Always returns at
least one fragment, and fragments do not contain the delimiter. -/
def splitEvents : List Char → List (List Char)
  | [] => [[]]
  | [c] => [[c]]
  | c1 :: c2 :: rest =>
    if c1 = '\n' ∧ c2 = '\n' then [] :: splitEvents rest
    else mergeHead c1 (splitEvents (c2 :: rest))

/-- Model of `lines.pop() || ''`: the last fragment of a split (the deferred,
possibly incomplete fragment), or the empty text. -/
def lastD : List (List Char) → List Char
  | [] => []
  | [f] => f
  | _ :: f :: fs => lastD (f :: fs)

/-- The fragments that remain after `lines.pop()`: all but the last. -/
def dropLastF : List (List Char) → List (List Char)
  | [] => []
  | [_] => []
  | f :: g :: fs => f :: dropLastF (g :: fs)

/-- Model of `line.startsWith('data: ')`. -/
def isDataLine (l : List Char) : Bool := ("data: ".data).isPrefixOf l

/-- The per-fragment loop of `streamChat` (stream.ts lines 81-96): for each
complete fragment, if it carries the `data: ` marker, strip the marker
(`line.slice(6)`) and JSON-parse it; a parse failure is logged and dropped;
a parsed event is yielded, and a `done` event causes an immediate `return`.
Returns the yielded events and whether the loop returned early. -/
def processLines (parse : List Char → Option StreamChunk) :
    List (List Char) → List StreamChunk × Bool
  | [] => ([], false)
  | l :: ls =>
    if isDataLine l then
      match parse (l.drop 6) with
      | some d =>
        if d.done then ([d], true)
        else
          let r := processLines parse ls
          (d :: r.1, r.2)
      | none => processLines parse ls
    else processLines parse ls

/-- The chunk loop of `streamChat` (stream.ts lines 66-97): while the reader
has chunks, append the decoded chunk to the buffer, split on the delimiter,
defer the last fragment back into the buffer, and run the per-fragment loop;
an early return from that loop stops reading.  Returns the yielded events
and whether the decoder returned early. -/
def goD (parse : List Char → Option StreamChunk) :
    List Char → List (List Char) → List StreamChunk × Bool
  | _, [] => ([], false)
  | buffer, c :: cs =>
    let parts := splitEvents (buffer ++ c)
    let r := processLines parse (dropLastF parts)
    if r.2 then (r.1, true)
    else
      let rest := goD parse (lastD parts) cs
      (r.1 ++ rest.1, rest.2)

/-- The full event sequence `streamChat` yields for a given sequence of
decoded chunks. -/
def streamChatEvents (parse : List Char → Option StreamChunk)
    (chunks : List (List Char)) : List StreamChunk :=
  (goD parse [] chunks).1

/- ----------------------------------------------------------------
External-call trace and environment oracle.
---------------------------------------------------------------- -/

/-- One outbound call to an external collaborator, in the order issued. -/
inductive ExtCall where
  | createConv
  | listConvs
  | deleteConv (id : Int)
  | addMsg (cid : Int) (m : Message)
  | genImage (prompt : List Char)
  | streamReq (msgs : List Message) (cid : Option Int)
deriving DecidableEq, Repr

/-- How the underlying SSE transport ends after yielding its events:
the generator completes, an AbortError is raised (cancellation signal), or
another network error is raised. -/
inductive StreamEnd where
  | completed
  | aborted
  | errored
deriving DecidableEq, Repr

/-- How the orchestrator's consumption loop exits: normally (generator
exhausted or `done` break), by AbortError, or by another thrown error. -/
inductive LoopExit where
  | ok
  | aborted
  | errored
deriving DecidableEq, Repr

/-- Oracle fixing the outcome of each external call during one turn. -/
structure Env where
  createResult : Except Unit Int
  listResult : Except Unit (List ConvSummary)
  addResult : Int → Message → Except Unit Unit
  deleteResult : Int → Except Unit Unit
  genResult : List Char → Except Unit GenResponse
  streamEvents : List StreamChunk
  streamEnd : StreamEnd

/- ----------------------------------------------------------------
Conversation store operations (chatStore.ts).
---------------------------------------------------------------- -/

/-- List helper for `appendToLastMessage`: concatenate onto the content of
the last message; the empty list is returned unchanged (source guards with
`messages.length > 0`). -/
def appendLastContent : List Message → List Char → List Message
  | [], _ => []
  | [m], d => [{ m with content := m.content ++ d }]
  | m :: m2 :: ms, d => m :: appendLastContent (m2 :: ms) d

/-- List helper for `updateLastMessage`: replace the content of the last
message wholesale. -/
def updateLastContent : List Message → List Char → List Message
  | [], _ => []
  | [m], c => [{ m with content := c }]
  | m :: m2 :: ms, c => m :: updateLastContent (m2 :: ms) c

/-- List helper for `setLastMessageImage`: attach an image to the last
message. -/
def setLastImage : List Message → List Char → List Message
  | [], _ => []
  | [m], img => [{ m with image := some img }]
  | m :: m2 :: ms, img => m :: setLastImage (m2 :: ms) img

/-- chatStore `addMessage`: append to the end of the list. -/
def addMessage (st : ChatState) (m : Message) : ChatState :=
  { st with messages := st.messages ++ [m] }

/-- chatStore `appendToLastMessage`. -/
def appendToLastMessage (st : ChatState) (d : List Char) : ChatState :=
  { st with messages := appendLastContent st.messages d }

/-- chatStore `updateLastMessage`. -/
def updateLastMessage (st : ChatState) (c : List Char) : ChatState :=
  { st with messages := updateLastContent st.messages c }

/-- chatStore `setLastMessageImage`. -/
def setLastMessageImage (st : ChatState) (img : List Char) : ChatState :=
  { st with messages := setLastImage st.messages img }

/-- chatStore `setIsStreaming`. -/
def setIsStreaming (st : ChatState) (b : Bool) : ChatState :=
  { st with isStreaming := b }

/-- chatStore `loadConversations`: set the loading flag, fetch the summary
list; on success replace the cache, on failure leave it; either way the
loading flag ends false and exactly one list call was made. -/
def loadConversations (env : Env) (st : ChatState) : ChatState × List ExtCall :=
  let st1 := { st with isLoadingConversations := true }
  match env.listResult with
  | .ok convs => ({ st1 with conversations := convs, isLoadingConversations := false }, [.listConvs])
  | .error _ => ({ st1 with isLoadingConversations := false }, [.listConvs])

/-- chatStore `saveMessage`: silently a no-op when there is no active
conversation; otherwise issue the addMessage storage call and, on success,
refresh the summary cache; a storage failure is logged and swallowed. -/
def saveMessage (env : Env) (st : ChatState) (m : Message) : ChatState × List ExtCall :=
  match st.currentConversationId with
  | none => (st, [])
  | some cid =>
    match env.addResult cid m with
    | .ok _ =>
      let lc := loadConversations env st
      (lc.1, .addMsg cid m :: lc.2)
    | .error _ => (st, [.addMsg cid m])

/-- chatStore `createConversation`: create through storage, refresh the
summary cache, set the new id as current and clear messages, return the id;
a creation failure propagates to the caller (`.error`). -/
def createConversation (env : Env) (st : ChatState) :
    Except Unit Int × ChatState × List ExtCall :=
  match env.createResult with
  | .ok id =>
    let lc := loadConversations env st
    (.ok id, { lc.1 with currentConversationId := some id, messages := [] }, .createConv :: lc.2)
  | .error e => (.error e, st, [.createConv])

/-- chatStore `deleteConversation`: delete through storage; on success, if
the deleted id was active, clear current id and messages, then refresh the
summary cache; a delete failure is logged and swallowed. -/
def deleteConversation (env : Env) (st : ChatState) (id : Int) :
    ChatState × List ExtCall :=
  match env.deleteResult id with
  | .ok _ =>
    let st1 :=
      if st.currentConversationId = some id then
        { st with currentConversationId := none, messages := [] }
      else st
    let lc := loadConversations env st1
    (lc.1, .deleteConv id :: lc.2)
  | .error _ => (st, [.deleteConv id])

/- ----------------------------------------------------------------
Response orchestrator: `sendMessage` of useStreamingResponse.
---------------------------------------------------------------- -/

/-- ASCII whitespace recognized by the model of `trim` and `\s`. -/
def isWsChar (c : Char) : Bool :=
  c == ' ' || c == '\t' || c == '\n' || c == '\r'

/-- Model of JavaScript `String.prototype.trim`. -/
def trimStr (s : List Char) : List Char :=
  ((s.dropWhile isWsChar).reverse.dropWhile isWsChar).reverse

/-- Model of `toLowerCase`. -/
def lowerStr (s : List Char) : List Char := s.map Char.toLower

/-- Model of `content.trim().toLowerCase().startsWith('/imagine')`. -/
def isImageCommand (content : List Char) : Bool :=
  ("/imagine".data).isPrefixOf (lowerStr (trimStr content))

/-- Model of `content.replace(/^\/imagine\s*/i, '').trim()`: the regex is
anchored at the start of the raw (untrimmed) content; when it matches, the
case-insensitive command word and the following whitespace run are removed,
then the remainder is trimmed; when it does not match, the whole content is
trimmed. -/
def imaginePrompt (content : List Char) : List Char :=
  if ("/imagine".data).isPrefixOf (lowerStr content) then
    trimStr ((content.drop 8).dropWhile isWsChar)
  else trimStr content

/-- Usage warning inserted when the `/imagine` command has an empty prompt. -/
def warningText : List Char :=
  "⚠️ Please provide a prompt after /imagine. Example: `/imagine a cute robot playing guitar`".data

/-- Placeholder content of the image path. -/
def genPlaceholderText : List Char := "🎨 Generating image...".data

/-- Failure content replacing the placeholder when generation fails. -/
def imageFailText : List Char :=
  "⚠️ Failed to generate image. Please check your Hugging Face API key and try again.".data

/-- Inline error notice appended on a non-abort stream failure. -/
def errNoticeText : List Char :=
  "\n\n⚠️ An error occurred. Please try again.".data

/-- Final assistant content of a successful image turn. -/
def imageCaption (prompt : List Char) : List Char :=
  "✨ Here's your image for: \"".data ++ prompt ++ "\"".data

/-- Model of JavaScript truthiness of `chunk.error` (a missing or empty
string is falsy). -/
def truthyErr : Option (List Char) → Bool
  | none => false
  | some e => !e.isEmpty

/-- The loop exit corresponding to how the exhausted transport ended. -/
def endExit : StreamEnd → LoopExit
  | .completed => .ok
  | .aborted => .aborted
  | .errored => .errored

/-- The `for await` loop of the text path (lines 128-144): for each yielded
chunk, a truthy `error` field throws (caught below as a non-abort error), a
`done` flag breaks, otherwise the content delta is appended to the last
message and accumulated; after the listed events the transport ends as the
environment dictates.  Returns the resulting state, the accumulated
`fullResponse`, and the exit kind. -/
def consumeStream : List StreamChunk → StreamEnd → ChatState →
    ChatState × List Char × LoopExit
  | [], e, st => (st, [], endExit e)
  | c :: cs, e, st =>
    if truthyErr c.error then (st, [], .errored)
    else if c.done then (st, [], .ok)
    else
      let r := consumeStream cs e (appendToLastMessage st c.content)
      (r.1, c.content ++ r.2.1, r.2.2)

/-- The ensure-conversation step of `sendMessage` (lines 39-46): reuse the
active conversation id, otherwise try to create one; a creation failure is
logged and the turn proceeds with a null id. -/
def ensureConv (env : Env) (st : ChatState) :
    Option Int × ChatState × List ExtCall :=
  match st.currentConversationId with
  | some id => (some id, st, [])
  | none =>
    let r := createConversation env st
    match r.1 with
    | .ok id => (some id, r.2.1, r.2.2)
    | .error _ => (none, r.2.1, r.2.2)

/-- The image path of `sendMessage` (lines 64-96), entered with a non-empty
prompt: insert and persist the user message, insert the placeholder, set
streaming, call `generateImage`; on success replace the placeholder content,
attach the image and persist the final assistant message; on failure replace
the placeholder with the failure text; finally clear the streaming flag. -/
def imagineBody (env : Env) (content prompt : List Char) (st1 : ChatState) :
    ChatState × List ExtCall :=
  let userMsg : Message := { role := .user, content := content }
  let st2 := addMessage st1 userMsg
  let sv := saveMessage env st2 userMsg
  let st4 := addMessage sv.1 { role := .assistant, content := genPlaceholderText }
  let st5 := setIsStreaming st4 true
  match env.genResult prompt with
  | .ok res =>
    let caption := imageCaption prompt
    let st6 := updateLastMessage st5 caption
    let st7 := setLastMessageImage st6 res.image
    let sv2 := saveMessage env st7 { role := .assistant, content := caption, image := some res.image }
    (setIsStreaming sv2.1 false, sv.2 ++ [.genImage prompt] ++ sv2.2)
  | .error _ =>
    (setIsStreaming (updateLastMessage st5 imageFailText) false,
      sv.2 ++ [.genImage prompt])

/-- The text path of `sendMessage` (lines 100-165): insert and persist the
user message, insert the empty assistant placeholder, set streaming, issue
the stream request with the history excluding the placeholder, consume the
stream; on graceful completion with non-empty accumulated text persist the
assistant message; an abort terminates silently; any other failure appends
the inline error notice; finally clear the streaming flag. -/
def textBody (env : Env) (content : List Char) (convId : Option Int)
    (st1 : ChatState) : ChatState × List ExtCall :=
  let userMsg : Message := { role := .user, content := content }
  let st2 := addMessage st1 userMsg
  let sv := saveMessage env st2 userMsg
  let st4 := addMessage sv.1 { role := .assistant, content := [] }
  let st5 := setIsStreaming st4 true
  let req : ExtCall := .streamReq st5.messages.dropLast convId
  let r := consumeStream env.streamEvents env.streamEnd st5
  match r.2.2 with
  | .ok =>
    if r.2.1.isEmpty then (setIsStreaming r.1 false, sv.2 ++ [req])
    else
      let sv2 := saveMessage env r.1 { role := .assistant, content := r.2.1 }
      (setIsStreaming sv2.1 false, sv.2 ++ [req] ++ sv2.2)
  | .aborted => (setIsStreaming r.1 false, sv.2 ++ [req])
  | .errored =>
    (setIsStreaming (appendToLastMessage r.1 errNoticeText) false,
      sv.2 ++ [req])

/-- The orchestrator `sendMessage` for one turn: ensure a conversation,
divert `/imagine` commands (with the empty-prompt usage warning), otherwise
run the text path.  Returns the final store state and the ordered trace of
external calls made during the turn. -/
def sendMessage (env : Env) (content : List Char) (st : ChatState) :
    ChatState × List ExtCall :=
  let e := ensureConv env st
  if isImageCommand content then
    let prompt := imaginePrompt content
    if prompt.isEmpty then
      (addMessage e.2.1 { role := .assistant, content := warningText }, e.2.2)
    else
      let r := imagineBody env content prompt e.2.1
      (r.1, e.2.2 ++ r.2)
  else
    let r := textBody env content e.1 e.2.1
    (r.1, e.2.2 ++ r.2)

/- ----------------------------------------------------------------
Concrete fixtures used by witnesses and counterexamples.
---------------------------------------------------------------- -/

/-- Concrete stand-in for JSON.parse used by decoder witnesses: recognizes
two well-formed payloads and rejects everything else. -/
def exampleParse (s : List Char) : Option StreamChunk :=
  if s = "{1}".data then some { content := "1".data, done := false }
  else if s = "{done}".data then some { content := [], done := true }
  else none

/-- Environment in which every external call succeeds. -/
def okEnv : Env where
  createResult := .ok 7
  listResult := .ok []
  addResult := fun _ _ => .ok ()
  deleteResult := fun _ => .ok ()
  genResult := fun p => .ok { image := "IMG".data, prompt := p }
  streamEvents := []
  streamEnd := .completed

/-- Store state with no messages and no active conversation. -/
def emptyState : ChatState where
  messages := []
  isStreaming := false
  currentConversationId := none
  conversations := []
  isLoadingConversations := false

/-- Store state with an active conversation (id 1) and no messages. -/
def activeState : ChatState := { emptyState with currentConversationId := some 1 }

/-- Default stream chunk used by last-element selectors. -/
def defChunk : StreamChunk := { content := [], done := false }

/-- Last yielded event of a sequence (or the default chunk). -/
def lastE : List StreamChunk → StreamChunk
  | [] => defChunk
  | [e] => e
  | _ :: e :: es => lastE (e :: es)

/-- Concatenation of the content deltas of a list of events. -/
def contentsJoin (evs : List StreamChunk) : List Char :=
  (evs.map (fun e => e.content)).flatten

/- ----------------------------------------------------------------
Lemmas about the transport decoder.
---------------------------------------------------------------- -/

theorem splitEvents_ne_nil (s : List Char) : splitEvents s ≠ [] := by
  induction s using splitEvents.induct with
  | case1 => simp [splitEvents]
  | case2 c => simp [splitEvents]
  | case3 c1 c2 rest h ih => simp [splitEvents, h]
  | case4 c1 c2 rest h ih =>
    simp only [splitEvents, if_neg h]
    cases hL : splitEvents (c2 :: rest) with
    | nil => exact absurd hL ih
    | cons f fs => simp [mergeHead]

theorem splitEvents_singleton (s : List Char) :
    ∀ f, splitEvents s = [f] → f = s := by
  induction s using splitEvents.induct with
  | case1 =>
    intro f h
    simp only [splitEvents, List.cons.injEq] at h
    exact h.1.symm
  | case2 c =>
    intro f h
    simp only [splitEvents, List.cons.injEq] at h
    exact h.1.symm
  | case3 c1 c2 rest h ih =>
    intro f hf
    simp only [splitEvents, if_pos h, List.cons.injEq] at hf
    exact absurd hf.2 (splitEvents_ne_nil rest)
  | case4 c1 c2 rest h ih =>
    intro f hf
    simp only [splitEvents, if_neg h] at hf
    cases hL : splitEvents (c2 :: rest) with
    | nil => exact absurd hL (splitEvents_ne_nil _)
    | cons g gs =>
      rw [hL] at hf
      simp only [mergeHead, List.cons.injEq] at hf
      have hg : g = c2 :: rest := by
        apply ih
        rw [hL, hf.2]
      rw [← hf.1, hg]

theorem splitEvents_lastD (s : List Char) :
    splitEvents (lastD (splitEvents s)) = [lastD (splitEvents s)] := by
  induction s using splitEvents.induct with
  | case1 => simp [splitEvents, lastD]
  | case2 c => simp [splitEvents, lastD]
  | case3 c1 c2 rest h ih =>
    simp only [splitEvents, if_pos h]
    cases hL : splitEvents rest with
    | nil => exact absurd hL (splitEvents_ne_nil rest)
    | cons f fs =>
      rw [hL] at ih
      simpa [lastD] using ih
  | case4 c1 c2 rest h ih =>
    simp only [splitEvents, if_neg h]
    cases hL : splitEvents (c2 :: rest) with
    | nil => exact absurd hL (splitEvents_ne_nil _)
    | cons f fs =>
      rw [hL] at ih
      cases fs with
      | nil =>
        have hf : f = c2 :: rest := splitEvents_singleton _ _ hL
        simp only [mergeHead, lastD]
        simp only [lastD] at ih
        rw [hf]
        simp only [splitEvents, if_neg h, hL, hf, mergeHead]
      | cons g gs =>
        simpa [mergeHead, lastD] using ih

theorem lastD_cons (x : List Char) (L : List (List Char)) (h : L ≠ []) :
    lastD (x :: L) = lastD L := by
  cases L with
  | nil => exact absurd rfl h
  | cons f fs => simp [lastD]

theorem dropLastF_cons (x : List Char) (L : List (List Char)) (h : L ≠ []) :
    dropLastF (x :: L) = x :: dropLastF L := by
  cases L with
  | nil => exact absurd rfl h
  | cons f fs => simp [dropLastF]

theorem dropLastF_append (A Q : List (List Char)) (h : Q ≠ []) :
    dropLastF (A ++ Q) = A ++ dropLastF Q := by
  induction A with
  | nil => simp
  | cons a A ih =>
    have hne : A ++ Q ≠ [] := by
      intro hc
      exact h (List.append_eq_nil.mp hc).2
    rw [List.cons_append, dropLastF_cons a (A ++ Q) hne, ih]
    rfl

theorem splitEvents_append (s t : List Char) :
    splitEvents (s ++ t) =
      dropLastF (splitEvents s) ++ splitEvents (lastD (splitEvents s) ++ t) := by
  induction s using splitEvents.induct with
  | case1 => simp [splitEvents, dropLastF, lastD]
  | case2 c => simp [splitEvents, dropLastF, lastD]
  | case3 c1 c2 rest h ih =>
    obtain ⟨h1, h2⟩ := h
    subst h1; subst h2
    cases hL : splitEvents rest with
    | nil => exact absurd hL (splitEvents_ne_nil rest)
    | cons f fs =>
      rw [hL] at ih
      have e1 : splitEvents ('\n' :: '\n' :: (rest ++ t)) = [] :: splitEvents (rest ++ t) := by
        simp [splitEvents]
      have e2 : splitEvents ('\n' :: '\n' :: rest) = [] :: splitEvents rest := by
        simp [splitEvents]
      simp only [List.cons_append]
      rw [e1, e2, hL, ih, dropLastF_cons _ (f :: fs) (by simp),
        lastD_cons _ (f :: fs) (by simp), List.cons_append]
  | case4 c1 c2 rest h ih =>
    have lhs : splitEvents ((c1 :: c2 :: rest) ++ t) =
        mergeHead c1 (splitEvents ((c2 :: rest) ++ t)) := by
      simp only [List.cons_append, splitEvents, if_neg h]
      rfl
    rw [lhs, ih]
    cases hL : splitEvents (c2 :: rest) with
    | nil => exact absurd hL (splitEvents_ne_nil _)
    | cons f fs =>
      cases fs with
      | nil =>
        have hf : f = c2 :: rest := splitEvents_singleton _ _ hL
        have rhs1 : splitEvents (c1 :: c2 :: rest) = mergeHead c1 (splitEvents (c2 :: rest)) := by
          simp only [splitEvents, if_neg h]
        have rhs2 : splitEvents (c1 :: c2 :: (rest ++ t)) =
            mergeHead c1 (splitEvents (c2 :: (rest ++ t))) := by
          simp only [splitEvents, if_neg h]
        rw [rhs1, hL]
        subst hf
        simp only [mergeHead, dropLastF, lastD, List.nil_append, List.cons_append, rhs2]
      | cons g gs =>
        have rhs1 : splitEvents (c1 :: c2 :: rest) = mergeHead c1 (splitEvents (c2 :: rest)) := by
          simp only [splitEvents, if_neg h]
        rw [rhs1, hL]
        simp only [mergeHead, dropLastF, lastD, List.cons_append]

theorem processLines_append (parse : List Char → Option StreamChunk)
    (L1 L2 : List (List Char)) :
    processLines parse (L1 ++ L2) =
      if (processLines parse L1).2 then processLines parse L1
      else ((processLines parse L1).1 ++ (processLines parse L2).1,
        (processLines parse L2).2) := by
  induction L1 with
  | nil => simp [processLines]
  | cons l ls ih =>
    simp only [List.cons_append, processLines]
    by_cases hp : isDataLine l
    · simp only [hp, if_true]
      cases hj : parse (l.drop 6) with
      | none => simpa using ih
      | some d =>
        by_cases hd : d.done
        · simp [hd]
        · simp only [hd, Bool.false_eq_true, if_false]
          simp only [List.append_eq]
          rw [ih]
          by_cases hs : (processLines parse ls).2
          · simp [hs, Prod.ext_iff]
          · simp [hs]
    · simpa [hp] using ih

theorem goD_spec (parse : List Char → Option StreamChunk) (cs : List (List Char)) :
    ∀ buffer, splitEvents buffer = [buffer] →
      goD parse buffer cs =
        processLines parse (dropLastF (splitEvents (buffer ++ cs.flatten))) := by
  induction cs with
  | nil =>
    intro b hb
    simp [goD, hb, dropLastF, processLines]
  | cons c cs ih =>
    intro b hb
    have key : splitEvents (b ++ (c :: cs).flatten) =
        dropLastF (splitEvents (b ++ c)) ++
          splitEvents (lastD (splitEvents (b ++ c)) ++ cs.flatten) := by
      have h := splitEvents_append (b ++ c) cs.flatten
      rw [List.append_assoc] at h
      simpa using h
    have ih' := ih (lastD (splitEvents (b ++ c))) (splitEvents_lastD (b ++ c))
    rw [goD, key, dropLastF_append _ _ (splitEvents_ne_nil _), processLines_append,
      ← ih']
    by_cases hs : (processLines parse (dropLastF (splitEvents (b ++ c)))).2
    · simp [hs, Prod.ext_iff]
    · simp [hs]

/-- Claim C1: chunk-boundary independence of the transport decoder — for
every partition of the decoded byte stream into chunks, iterating
streamChat's decode loop yields exactly the same ordered sequence of parsed
StreamChunk events as decoding the same bytes delivered as one single
chunk, for every parse function (in particular for JSON.parse). -/
theorem chunk_boundary_independence (parse : List Char → Option StreamChunk)
    (chunks : List (List Char)) :
    streamChatEvents parse chunks = streamChatEvents parse [chunks.flatten] := by
  unfold streamChatEvents
  rw [goD_spec parse chunks [] (by rfl), goD_spec parse [chunks.flatten] [] (by rfl)]
  simp

/-- Claim C4: malformed fragments are non-fatal — a fragment carrying the
event marker whose payload fails to parse is dropped, and the decoder's
per-fragment loop behaves exactly as if the malformed fragment were absent:
every well-formed fragment before and after it is yielded in order and the
malformed fragment never terminates the stream. -/
theorem malformed_fragment_dropped (parse : List Char → Option StreamChunk)
    (pre post : List (List Char)) (mal : List Char)
    (hmark : isDataLine mal = true) (hbad : parse (mal.drop 6) = none) :
    processLines parse (pre ++ mal :: post) = processLines parse (pre ++ post) := by
  have hmal : processLines parse (mal :: post) = processLines parse post := by
    simp [processLines, hmark, hbad]
  rw [processLines_append, processLines_append parse pre post, hmal]

theorem malformed_fragment_dropped_witness :
    isDataLine ("data: nope".data) = true ∧
    exampleParse (("data: nope".data).drop 6) = none ∧
    processLines exampleParse
        (["data: {1}".data] ++ ("data: nope".data) :: ["data: {1}".data]) =
      processLines exampleParse (["data: {1}".data] ++ ["data: {1}".data]) :=
  ⟨by decide, by decide,
    malformed_fragment_dropped exampleParse ["data: {1}".data] ["data: {1}".data]
      ("data: nope".data) (by decide) (by decide)⟩

theorem lastE_cons (x : StreamChunk) (L : List StreamChunk) (h : L ≠ []) :
    lastE (x :: L) = lastE L := by
  cases L with
  | nil => exact absurd rfl h
  | cons e es => simp [lastE]

theorem lastE_append (A B : List StreamChunk) (h : B ≠ []) :
    lastE (A ++ B) = lastE B := by
  induction A with
  | nil => simp
  | cons a A ih =>
    have hne : A ++ B ≠ [] := by
      intro hc
      exact h (List.append_eq_nil.mp hc).2
    rw [List.cons_append, lastE_cons a (A ++ B) hne, ih]

theorem processLines_cons_none (parse : List Char → Option StreamChunk)
    (l : List Char) (ls : List (List Char))
    (hp : isDataLine l = true) (hj : parse (l.drop 6) = none) :
    processLines parse (l :: ls) = processLines parse ls := by
  simp [processLines, hp, hj]

theorem processLines_cons_done (parse : List Char → Option StreamChunk)
    (l : List Char) (ls : List (List Char)) (d : StreamChunk)
    (hp : isDataLine l = true) (hj : parse (l.drop 6) = some d)
    (hd : d.done = true) :
    processLines parse (l :: ls) = ([d], true) := by
  simp [processLines, hp, hj, hd]

theorem processLines_cons_event (parse : List Char → Option StreamChunk)
    (l : List Char) (ls : List (List Char)) (d : StreamChunk)
    (hp : isDataLine l = true) (hj : parse (l.drop 6) = some d)
    (hd : d.done = false) :
    processLines parse (l :: ls) =
      (d :: (processLines parse ls).1, (processLines parse ls).2) := by
  simp [processLines, hp, hj, hd]

theorem processLines_cons_skip (parse : List Char → Option StreamChunk)
    (l : List Char) (ls : List (List Char)) (hp : isDataLine l = false) :
    processLines parse (l :: ls) = processLines parse ls := by
  simp [processLines, hp]

theorem processLines_not_stopped (parse : List Char → Option StreamChunk)
    (ls : List (List Char)) (h : (processLines parse ls).2 = false) :
    ∀ e ∈ (processLines parse ls).1, e.done = false := by
  induction ls with
  | nil => simp [processLines]
  | cons l ls ih =>
    by_cases hp : isDataLine l
    · cases hj : parse (l.drop 6) with
      | none =>
        rw [processLines_cons_none parse l ls hp hj] at h ⊢
        exact ih h
      | some d =>
        by_cases hd : d.done
        · rw [processLines_cons_done parse l ls d hp hj hd] at h
          simp at h
        · rw [processLines_cons_event parse l ls d hp hj (by simpa using hd)] at h ⊢
          intro e he
          rcases List.mem_cons.mp he with rfl | he'
          · simpa using hd
          · exact ih h e he'
    · rw [processLines_cons_skip parse l ls (by simpa using hp)] at h ⊢
      exact ih h

theorem processLines_dropLast (parse : List Char → Option StreamChunk)
    (ls : List (List Char)) :
    ∀ e ∈ (processLines parse ls).1.dropLast, e.done = false := by
  induction ls with
  | nil => simp [processLines]
  | cons l ls ih =>
    by_cases hp : isDataLine l
    · cases hj : parse (l.drop 6) with
      | none =>
        rw [processLines_cons_none parse l ls hp hj]
        exact ih
      | some d =>
        by_cases hd : d.done
        · rw [processLines_cons_done parse l ls d hp hj hd]
          simp
        · rw [processLines_cons_event parse l ls d hp hj (by simpa using hd)]
          intro e he
          cases hr : (processLines parse ls).1 with
          | nil => simp [hr] at he
          | cons a as =>
            rw [hr, List.dropLast_cons₂] at he
            rcases List.mem_cons.mp he with rfl | he'
            · simpa using hd
            · have := ih e
              rw [hr] at this
              exact this he'
    · rw [processLines_cons_skip parse l ls (by simpa using hp)]
      exact ih

theorem processLines_stopped_last (parse : List Char → Option StreamChunk)
    (ls : List (List Char)) (h : (processLines parse ls).2 = true) :
    (processLines parse ls).1 ≠ [] ∧
      (lastE (processLines parse ls).1).done = true := by
  induction ls with
  | nil => simp [processLines] at h
  | cons l ls ih =>
    by_cases hp : isDataLine l
    · cases hj : parse (l.drop 6) with
      | none =>
        rw [processLines_cons_none parse l ls hp hj] at h ⊢
        exact ih h
      | some d =>
        by_cases hd : d.done
        · rw [processLines_cons_done parse l ls d hp hj hd]
          simp [lastE, hd]
        · rw [processLines_cons_event parse l ls d hp hj (by simpa using hd)] at h ⊢
          obtain ⟨hne, hlast⟩ := ih h
          refine ⟨by simp, ?_⟩
          rw [lastE_cons _ _ hne]
          exact hlast
    · rw [processLines_cons_skip parse l ls (by simpa using hp)] at h ⊢
      exact ih h

theorem goD_cons (parse : List Char → Option StreamChunk) (b c : List Char)
    (cs : List (List Char)) :
    goD parse b (c :: cs) =
      if (processLines parse (dropLastF (splitEvents (b ++ c)))).2 then
        ((processLines parse (dropLastF (splitEvents (b ++ c)))).1, true)
      else
        ((processLines parse (dropLastF (splitEvents (b ++ c)))).1 ++
            (goD parse (lastD (splitEvents (b ++ c))) cs).1,
          (goD parse (lastD (splitEvents (b ++ c))) cs).2) := by
  simp [goD]

theorem goD_not_stopped (parse : List Char → Option StreamChunk)
    (cs : List (List Char)) : ∀ b, (goD parse b cs).2 = false →
      ∀ e ∈ (goD parse b cs).1, e.done = false := by
  induction cs with
  | nil => intro b h; simp [goD]
  | cons c cs ih =>
    intro b h
    rw [goD_cons] at h ⊢
    by_cases hs : (processLines parse (dropLastF (splitEvents (b ++ c)))).2
    · simp [hs] at h
    · simp only [hs, Bool.false_eq_true, if_false] at h ⊢
      intro e he
      rcases List.mem_append.mp he with h1 | h2
      · exact processLines_not_stopped parse _ (by simpa using hs) e h1
      · exact ih (lastD (splitEvents (b ++ c))) h e h2

theorem goD_dropLast (parse : List Char → Option StreamChunk)
    (cs : List (List Char)) : ∀ b,
      ∀ e ∈ (goD parse b cs).1.dropLast, e.done = false := by
  induction cs with
  | nil => intro b; simp [goD]
  | cons c cs ih =>
    intro b
    rw [goD_cons]
    by_cases hs : (processLines parse (dropLastF (splitEvents (b ++ c)))).2
    · simp only [hs, if_true]
      exact processLines_dropLast parse _
    · simp only [hs, Bool.false_eq_true, if_false]
      intro e he
      by_cases hre : (goD parse (lastD (splitEvents (b ++ c))) cs).1 = []
      · rw [hre, List.append_nil] at he
        exact processLines_not_stopped parse _ (by simpa using hs) e
          (List.dropLast_subset _ he)
      · rw [List.dropLast_append_of_ne_nil _ hre] at he
        rcases List.mem_append.mp he with h1 | h2
        · exact processLines_not_stopped parse _ (by simpa using hs) e h1
        · exact ih (lastD (splitEvents (b ++ c))) e h2

theorem goD_stopped_last (parse : List Char → Option StreamChunk)
    (cs : List (List Char)) : ∀ b, (goD parse b cs).2 = true →
      (goD parse b cs).1 ≠ [] ∧ (lastE (goD parse b cs).1).done = true := by
  induction cs with
  | nil => intro b h; simp [goD] at h
  | cons c cs ih =>
    intro b h
    rw [goD_cons] at h ⊢
    by_cases hs : (processLines parse (dropLastF (splitEvents (b ++ c)))).2
    · simp only [hs, if_true]
      exact processLines_stopped_last parse _ hs
    · simp only [hs, Bool.false_eq_true, if_false] at h ⊢
      obtain ⟨hne, hlast⟩ := ih (lastD (splitEvents (b ++ c))) h
      constructor
      · intro hc
        exact hne (List.append_eq_nil.mp hc).2
      · rw [lastE_append _ _ hne]
        exact hlast

theorem goD_append_stopped (parse : List Char → Option StreamChunk)
    (cs : List (List Char)) : ∀ b extra, (goD parse b cs).2 = true →
      goD parse b (cs ++ extra) = goD parse b cs := by
  induction cs with
  | nil => intro b extra h; simp [goD] at h
  | cons c cs ih =>
    intro b extra h
    rw [goD_cons] at h
    rw [List.cons_append, goD_cons, goD_cons]
    by_cases hs : (processLines parse (dropLastF (splitEvents (b ++ c)))).2
    · simp [hs]
    · simp only [hs, Bool.false_eq_true, if_false] at h ⊢
      rw [ih (lastD (splitEvents (b ++ c))) extra (by simpa using h)]

/-- Claim C5: the terminal event ends the sequence — when the decode loop
returns early (it yielded an event whose done field is true), every yielded
event before the last has done = false, the last yielded event has
done = true, and delivering any further queued transport chunks changes
nothing: the decoder reads no further input. -/
theorem terminal_event_ends_stream (parse : List Char → Option StreamChunk)
    (chunks extra : List (List Char))
    (h : (goD parse [] chunks).2 = true) :
    streamChatEvents parse (chunks ++ extra) = streamChatEvents parse chunks ∧
    (∀ e ∈ (streamChatEvents parse chunks).dropLast, e.done = false) ∧
    (lastE (streamChatEvents parse chunks)).done = true := by
  unfold streamChatEvents
  refine ⟨?_, ?_, ?_⟩
  · rw [goD_append_stopped parse chunks [] extra h]
  · exact goD_dropLast parse chunks []
  · exact (goD_stopped_last parse chunks [] h).2

theorem terminal_event_ends_stream_witness :
    (goD exampleParse [] ["data: {done}\n\ndata: {1}\n\n".data]).2 = true ∧
    (streamChatEvents exampleParse
        (["data: {done}\n\ndata: {1}\n\n".data] ++ ["data: {1}\n\n".data]) =
      streamChatEvents exampleParse ["data: {done}\n\ndata: {1}\n\n".data] ∧
    (∀ e ∈ (streamChatEvents exampleParse
        ["data: {done}\n\ndata: {1}\n\n".data]).dropLast, e.done = false) ∧
    (lastE (streamChatEvents exampleParse
        ["data: {done}\n\ndata: {1}\n\n".data])).done = true) :=
  ⟨by decide,
    terminal_event_ends_stream exampleParse ["data: {done}\n\ndata: {1}\n\n".data]
      ["data: {1}\n\n".data] (by decide)⟩

/- ----------------------------------------------------------------
Lemmas about the conversation store and the orchestrator.
---------------------------------------------------------------- -/

theorem appendLastContent_nil (ms : List Message) : appendLastContent ms [] = ms := by
  induction ms with
  | nil => rfl
  | cons m ms ih =>
    cases ms with
    | nil => simp [appendLastContent]
    | cons m2 ms2 =>
      simp only [appendLastContent] at ih ⊢
      rw [ih]

theorem appendLastContent_cons (m : Message) (ms : List Message)
    (h : ms ≠ []) (d : List Char) :
    appendLastContent (m :: ms) d = m :: appendLastContent ms d := by
  cases ms with
  | nil => exact absurd rfl h
  | cons m2 ms2 => simp [appendLastContent]

theorem appendLastContent_ne_nil (ms : List Message) (d : List Char) (h : ms ≠ []) :
    appendLastContent ms d ≠ [] := by
  cases ms with
  | nil => exact absurd rfl h
  | cons m ms2 =>
    cases ms2 with
    | nil => simp [appendLastContent]
    | cons m2 ms3 => simp [appendLastContent]

theorem appendLastContent_concat (ms : List Message) (m : Message) (d : List Char) :
    appendLastContent (ms ++ [m]) d = ms ++ [{ m with content := m.content ++ d }] := by
  induction ms with
  | nil => simp [appendLastContent]
  | cons a ms ih =>
    rw [List.cons_append, appendLastContent_cons a (ms ++ [m]) (by simp) d, ih]
    rfl

theorem appendLastContent_append (ms : List Message) (a b : List Char) :
    appendLastContent (appendLastContent ms a) b = appendLastContent ms (a ++ b) := by
  induction ms with
  | nil => rfl
  | cons m ms ih =>
    cases ms with
    | nil => simp [appendLastContent, List.append_assoc]
    | cons m2 ms2 =>
      rw [appendLastContent_cons m (m2 :: ms2) (by simp) a,
        appendLastContent_cons m (appendLastContent (m2 :: ms2) a)
          (appendLastContent_ne_nil _ _ (by simp)) b,
        appendLastContent_cons m (m2 :: ms2) (by simp) (a ++ b), ih]

theorem updateLastContent_concat (ms : List Message) (m : Message) (c : List Char) :
    updateLastContent (ms ++ [m]) c = ms ++ [{ m with content := c }] := by
  induction ms with
  | nil => simp [updateLastContent]
  | cons a ms ih =>
    cases hms : ms ++ [m] with
    | nil => simp at hms
    | cons b bs =>
      rw [List.cons_append, hms]
      simp only [updateLastContent]
      rw [← hms, ih]
      rfl

theorem setLastImage_concat (ms : List Message) (m : Message) (img : List Char) :
    setLastImage (ms ++ [m]) img = ms ++ [{ m with image := some img }] := by
  induction ms with
  | nil => simp [setLastImage]
  | cons a ms ih =>
    cases hms : ms ++ [m] with
    | nil => simp at hms
    | cons b bs =>
      rw [List.cons_append, hms]
      simp only [setLastImage]
      rw [← hms, ih]
      rfl

theorem loadConversations_messages (env : Env) (st : ChatState) :
    (loadConversations env st).1.messages = st.messages := by
  cases h : env.listResult <;> simp [loadConversations, h]

theorem loadConversations_cid (env : Env) (st : ChatState) :
    (loadConversations env st).1.currentConversationId = st.currentConversationId := by
  cases h : env.listResult <;> simp [loadConversations, h]

theorem loadConversations_streaming (env : Env) (st : ChatState) :
    (loadConversations env st).1.isStreaming = st.isStreaming := by
  cases h : env.listResult <;> simp [loadConversations, h]

theorem loadConversations_trace (env : Env) (st : ChatState) :
    (loadConversations env st).2 = [.listConvs] := by
  cases h : env.listResult <;> simp [loadConversations, h]

theorem saveMessage_none (env : Env) (st : ChatState) (m : Message)
    (h : st.currentConversationId = none) : saveMessage env st m = (st, []) := by
  simp [saveMessage, h]

theorem saveMessage_messages (env : Env) (st : ChatState) (m : Message) :
    (saveMessage env st m).1.messages = st.messages := by
  cases hc : st.currentConversationId with
  | none => simp [saveMessage, hc]
  | some cid =>
    cases ha : env.addResult cid m with
    | ok u => simp [saveMessage, hc, ha, loadConversations_messages]
    | error e => simp [saveMessage, hc, ha]

theorem saveMessage_cid (env : Env) (st : ChatState) (m : Message) :
    (saveMessage env st m).1.currentConversationId = st.currentConversationId := by
  cases hc : st.currentConversationId with
  | none => simp [saveMessage, hc]
  | some cid =>
    cases ha : env.addResult cid m with
    | ok u => simp [saveMessage, hc, ha, loadConversations_cid]
    | error e => simp [saveMessage, hc, ha]

theorem saveMessage_mem (env : Env) (st : ChatState) (m : Message) (cid : Int)
    (h : st.currentConversationId = some cid) :
    ExtCall.addMsg cid m ∈ (saveMessage env st m).2 := by
  cases ha : env.addResult cid m with
  | ok u => simp [saveMessage, h, ha]
  | error e => simp [saveMessage, h, ha]

theorem saveMessage_addMsg_only (env : Env) (st : ChatState) (m : Message)
    (c : Int) (m' : Message) (h : ExtCall.addMsg c m' ∈ (saveMessage env st m).2) :
    m' = m := by
  cases hc : st.currentConversationId with
  | none => simp [saveMessage, hc] at h
  | some cid =>
    cases ha : env.addResult cid m with
    | ok u =>
      simp [saveMessage, hc, ha, loadConversations_trace] at h
      exact h.2
    | error e =>
      simp [saveMessage, hc, ha] at h
      exact h.2

theorem ensureConv_some (env : Env) (st : ChatState) (cid : Int)
    (h : st.currentConversationId = some cid) :
    ensureConv env st = (some cid, st, []) := by
  simp [ensureConv, h]

theorem ensureConv_fail (env : Env) (st : ChatState)
    (hn : st.currentConversationId = none) (hc : env.createResult = .error ()) :
    ensureConv env st = (none, st, [.createConv]) := by
  simp [ensureConv, hn, createConversation, hc]

theorem ensureConv_cid (env : Env) (st st1 : ChatState) (cid : Int)
    (tr1 : List ExtCall) (h : ensureConv env st = (some cid, st1, tr1)) :
    st1.currentConversationId = some cid := by
  cases hc : st.currentConversationId with
  | some i =>
    rw [ensureConv_some env st i hc] at h
    simp only [Prod.mk.injEq] at h
    obtain ⟨h1, h2, h3⟩ := h
    rw [← h2, hc, h1]
  | none =>
    cases hcr : env.createResult with
    | ok id =>
      simp only [ensureConv, hc, createConversation, hcr, Prod.mk.injEq] at h
      obtain ⟨h1, h2, h3⟩ := h
      rw [← h2]
      simpa using h1
    | error e =>
      simp only [ensureConv, hc, createConversation, hcr, Prod.mk.injEq] at h
      exact absurd h.1 (by simp)

theorem ensureConv_no_addMsg (env : Env) (st : ChatState) (c : Int) (m : Message) :
    ExtCall.addMsg c m ∉ (ensureConv env st).2.2 := by
  cases hc : st.currentConversationId with
  | some i => simp [ensureConv, hc]
  | none =>
    cases hcr : env.createResult with
    | ok id =>
      simp [ensureConv, hc, createConversation, hcr, loadConversations_trace]
    | error e =>
      simp [ensureConv, hc, createConversation, hcr]

theorem consumeStream_cons_step (c : StreamChunk) (cs : List StreamChunk)
    (e : StreamEnd) (st : ChatState)
    (herr : truthyErr c.error = false) (hd : c.done = false) :
    consumeStream (c :: cs) e st =
      ((consumeStream cs e (appendToLastMessage st c.content)).1,
        c.content ++ (consumeStream cs e (appendToLastMessage st c.content)).2.1,
        (consumeStream cs e (appendToLastMessage st c.content)).2.2) := by
  simp [consumeStream, herr, hd]

theorem consumeStream_state (evs : List StreamChunk) (e : StreamEnd) :
    ∀ st, (consumeStream evs e st).1 =
      { st with messages := appendLastContent st.messages (consumeStream evs e st).2.1 } := by
  induction evs with
  | nil => intro st; simp [consumeStream, appendLastContent_nil]
  | cons c cs ih =>
    intro st
    by_cases herr : truthyErr c.error
    · simp [consumeStream, herr, appendLastContent_nil]
    · by_cases hd : c.done
      · simp [consumeStream, herr, hd, appendLastContent_nil]
      · rw [consumeStream_cons_step c cs e st (by simpa using herr) (by simpa using hd)]
        rw [ih (appendToLastMessage st c.content)]
        simp [appendToLastMessage, appendLastContent_append]

theorem consumeStream_cid (evs : List StreamChunk) (e : StreamEnd) (st : ChatState) :
    (consumeStream evs e st).1.currentConversationId = st.currentConversationId := by
  rw [consumeStream_state evs e st]

theorem consumeStream_aborted (evs : List StreamChunk) :
    ∀ st, (∀ ev ∈ evs, ev.done = false ∧ truthyErr ev.error = false) →
      consumeStream evs .aborted st =
        ({ st with messages := appendLastContent st.messages (contentsJoin evs) },
          contentsJoin evs, .aborted) := by
  induction evs with
  | nil =>
    intro st h
    simp [consumeStream, endExit, contentsJoin, appendLastContent_nil]
  | cons c cs ih =>
    intro st h
    obtain ⟨hd, herr⟩ := h c (by simp)
    rw [consumeStream_cons_step c cs .aborted st herr hd]
    rw [ih (appendToLastMessage st c.content) (fun ev hev => h ev (by simp [hev]))]
    simp only [appendToLastMessage, contentsJoin, List.map_cons, List.flatten_cons]
    rw [appendLastContent_append]

/-- Claim C8: saveMessage precondition no-op — when there is no active
conversation, saveMessage performs no storage call (empty trace), leaves
every field of the store state unchanged, and returns normally. -/
theorem saveMessage_noop_without_conversation (env : Env) (st : ChatState)
    (m : Message) (h : st.currentConversationId = none) :
    saveMessage env st m = (st, []) := by
  simp [saveMessage, h]

theorem saveMessage_noop_without_conversation_witness :
    emptyState.currentConversationId = none ∧
    saveMessage okEnv emptyState { role := .user, content := "hi".data } =
      (emptyState, []) :=
  ⟨rfl, saveMessage_noop_without_conversation okEnv emptyState
    { role := .user, content := "hi".data } rfl⟩

/-- Claim C9: deleting the active conversation clears local state as a unit
and refreshes the list — after a successful storage delete of the active
conversation id, messages are empty, the current id is null, the summary
cache holds the freshly fetched list, and the trace shows the refresh was
issued after the delete. -/
theorem deleteConversation_active_clears (env : Env) (st : ChatState) (i : Int)
    (l : List ConvSummary)
    (hc : st.currentConversationId = some i)
    (hd : env.deleteResult i = .ok ())
    (hl : env.listResult = .ok l) :
    deleteConversation env st i =
      ({ st with
          currentConversationId := none
          messages := []
          conversations := l
          isLoadingConversations := false },
        [.deleteConv i, .listConvs]) := by
  simp [deleteConversation, hd, hc, loadConversations, hl]

theorem deleteConversation_active_clears_witness :
    activeState.currentConversationId = some 1 ∧
    okEnv.deleteResult 1 = .ok () ∧
    okEnv.listResult = .ok [] ∧
    deleteConversation okEnv activeState 1 =
      ({ activeState with
          currentConversationId := none
          messages := []
          conversations := []
          isLoadingConversations := false },
        [.deleteConv 1, .listConvs]) :=
  ⟨rfl, rfl, rfl, deleteConversation_active_clears okEnv activeState 1 [] rfl rfl rfl⟩

/-- Claim C10 (amended): for every input that is an image command
(trimmed, lowercased form starts with "/imagine") whose computed prompt —
the raw input stripped of a leading case-insensitive "/imagine" plus the
following whitespace run, then trimmed — is empty (e.g. "/imagine" or
"/imagine   "), sendMessage run with an active conversation appends exactly
one assistant usage-warning message and returns: no user message is
inserted, no generation or streaming request is made, nothing is persisted
(empty external-call trace), and the streaming flag is never touched. -/
theorem imagine_empty_prompt_warning (env : Env) (content : List Char)
    (st : ChatState) (cid : Int)
    (himg : isImageCommand content = true)
    (hpr : imaginePrompt content = [])
    (hcid : st.currentConversationId = some cid) :
    sendMessage env content st =
      ({ st with messages :=
          st.messages ++ [{ role := .assistant, content := warningText }] }, []) := by
  rw [sendMessage, ensureConv_some env st cid hcid]
  simp [himg, hpr, addMessage]

theorem imagine_empty_prompt_warning_witness :
    isImageCommand ("/imagine   ".data) = true ∧
    imaginePrompt ("/imagine   ".data) = [] ∧
    activeState.currentConversationId = some 1 ∧
    sendMessage okEnv ("/imagine   ".data) activeState =
      ({ activeState with messages :=
          activeState.messages ++ [{ role := .assistant, content := warningText }] }, []) :=
  ⟨by decide, by decide, rfl,
    imagine_empty_prompt_warning okEnv ("/imagine   ".data) activeState 1
      (by decide) (by decide) rfl⟩

/-- Counterexample to claim C10 as stated: the input " /imagine" (one
leading space) has a trimmed, lowercased form that starts with "/imagine"
and nothing after the command word, yet sendMessage does not take the
usage-warning path: the anchored regex of the prompt extraction fails to
match the untrimmed input, so the computed prompt is the non-empty
"/imagine"; a user message is inserted (two messages appear, roles user
then assistant) and a generation request is issued. -/
theorem imagine_empty_prompt_counterexample :
    isImageCommand (" /imagine".data) = true ∧
    trimStr (" /imagine".data) = "/imagine".data ∧
    imaginePrompt (" /imagine".data) = "/imagine".data ∧
    (sendMessage okEnv (" /imagine".data) activeState).1.messages.length = 2 ∧
    (sendMessage okEnv (" /imagine".data) activeState).1.messages.map Message.role =
      [Role.user, Role.assistant] ∧
    ExtCall.genImage ("/imagine".data) ∈ (sendMessage okEnv (" /imagine".data) activeState).2 := by
  decide

/-- Claim C2: text-path round trip — when the decoder yields exactly the
events Hel, lo (both not done) and an empty done event during a text-path
turn with an ensured conversation, the assistant placeholder ends with
content "Hello", the accumulated "Hello" is sent to storage via
saveMessage, and the streaming flag ends false. -/
theorem text_path_round_trip (env : Env) (content : List Char)
    (st st1 : ChatState) (cid : Int) (tr1 : List ExtCall)
    (himg : isImageCommand content = false)
    (hE : ensureConv env st = (some cid, st1, tr1))
    (hevs : env.streamEvents =
      [{ content := "Hel".data, done := false },
       { content := "lo".data, done := false },
       { content := [], done := true }]) :
    (sendMessage env content st).1.messages =
      st1.messages ++ [{ role := .user, content := content },
        { role := .assistant, content := "Hello".data }] ∧
    (sendMessage env content st).1.isStreaming = false ∧
    ExtCall.addMsg cid { role := .assistant, content := "Hello".data } ∈
      (sendMessage env content st).2 := by
  have hcid1 : st1.currentConversationId = some cid :=
    ensureConv_cid env st st1 cid tr1 hE
  have hj1 : "Hel".data ++ ("lo".data ++ ([] : List Char)) = "Hello".data := by decide
  have hcs : ∀ (e : StreamEnd) (s : ChatState),
      consumeStream [{ content := "Hel".data, done := false },
        { content := "lo".data, done := false },
        { content := [], done := true }] e s =
      ({ s with messages := appendLastContent s.messages "Hello".data },
        "Hello".data, .ok) := by
    intro e s
    simp [consumeStream, truthyErr, appendToLastMessage,
      appendLastContent_append, hj1]
  have hne : ("Hello".data).isEmpty = false := by decide
  have hsend : sendMessage env content st =
      ((textBody env content (some cid) st1).1,
        tr1 ++ (textBody env content (some cid) st1).2) := by
    simp [sendMessage, hE, himg]
  rw [hsend]
  refine ⟨?_, ?_, ?_⟩
  · simp only [textBody, hevs, hcs, hne, setIsStreaming, addMessage,
      Bool.false_eq_true, if_false]
    simp only [saveMessage_messages]
    rw [appendLastContent_concat]
    simp
  · simp only [textBody, hevs, hcs, hne, Bool.false_eq_true, if_false]
    simp [setIsStreaming]
  · simp only [textBody, hevs, hcs, hne, setIsStreaming, addMessage,
      Bool.false_eq_true, if_false]
    refine List.mem_append_right _ (List.mem_append_right _ ?_)
    exact saveMessage_mem env _ _ cid
      (by simp [saveMessage_cid, addMessage, hcid1])

theorem text_path_round_trip_witness :
    isImageCommand ("hi".data) = false ∧
    ensureConv { okEnv with streamEvents :=
        [{ content := "Hel".data, done := false },
         { content := "lo".data, done := false },
         { content := [], done := true }] } activeState = (some 1, activeState, []) ∧
    ((sendMessage { okEnv with streamEvents :=
        [{ content := "Hel".data, done := false },
         { content := "lo".data, done := false },
         { content := [], done := true }] } ("hi".data) activeState).1.messages =
      activeState.messages ++ [{ role := .user, content := "hi".data },
        { role := .assistant, content := "Hello".data }] ∧
    (sendMessage { okEnv with streamEvents :=
        [{ content := "Hel".data, done := false },
         { content := "lo".data, done := false },
         { content := [], done := true }] } ("hi".data) activeState).1.isStreaming = false ∧
    ExtCall.addMsg 1 { role := .assistant, content := "Hello".data } ∈
      (sendMessage { okEnv with streamEvents :=
        [{ content := "Hel".data, done := false },
         { content := "lo".data, done := false },
         { content := [], done := true }] } ("hi".data) activeState).2) :=
  ⟨by decide, by decide,
    text_path_round_trip _ ("hi".data) activeState activeState 1 []
      (by decide) (by decide) rfl⟩

/-- Claim C3: cancellation is clean and silent — on a text-path turn in
which the abort signal fires (the transport raises AbortError after the
events yielded so far, none of which was terminal or carried an error), the
turn ends with the partial content left intact on the placeholder, no error
notice appended, no persistence of the partial assistant response (the only
message ever sent to storage is the user message), and the streaming flag
false. -/
theorem cancellation_clean_silent (env : Env) (content : List Char)
    (st st1 : ChatState) (cidOpt : Option Int) (tr1 : List ExtCall)
    (himg : isImageCommand content = false)
    (hE : ensureConv env st = (cidOpt, st1, tr1))
    (hend : env.streamEnd = .aborted)
    (hevs : ∀ ev ∈ env.streamEvents, ev.done = false ∧ truthyErr ev.error = false) :
    (sendMessage env content st).1.messages =
      st1.messages ++ [{ role := .user, content := content },
        { role := .assistant, content := contentsJoin env.streamEvents }] ∧
    (sendMessage env content st).1.isStreaming = false ∧
    (∀ c m, ExtCall.addMsg c m ∈ (sendMessage env content st).2 →
      m = { role := .user, content := content }) := by
  have hsend : sendMessage env content st =
      ((textBody env content cidOpt st1).1,
        tr1 ++ (textBody env content cidOpt st1).2) := by
    simp [sendMessage, hE, himg]
  have htr1 : ∀ (c : Int) (m : Message), ExtCall.addMsg c m ∉ tr1 := by
    intro c m hm
    have hno := ensureConv_no_addMsg env st c m
    rw [hE] at hno
    exact hno hm
  rw [hsend]
  refine ⟨?_, ?_, ?_⟩
  · simp only [textBody, hend]
    rw [consumeStream_aborted env.streamEvents _ hevs]
    simp only [setIsStreaming, addMessage, saveMessage_messages]
    rw [appendLastContent_concat]
    simp
  · simp only [textBody, hend]
    rw [consumeStream_aborted env.streamEvents _ hevs]
    simp [setIsStreaming]
  · simp only [textBody, hend]
    rw [consumeStream_aborted env.streamEvents _ hevs]
    intro c m hm
    simp only [List.mem_append] at hm
    rcases hm with h1 | h2
    · exact absurd h1 (htr1 c m)
    · rcases h2 with h3 | h4
      · exact saveMessage_addMsg_only env _ _ c m h3
      · simp at h4

theorem cancellation_clean_silent_witness :
    isImageCommand ("hi".data) = false ∧
    ensureConv { okEnv with
        streamEvents := [{ content := "par".data, done := false }]
        streamEnd := .aborted } activeState = (some 1, activeState, []) ∧
    ({ okEnv with
        streamEvents := [{ content := "par".data, done := false }]
        streamEnd := .aborted } : Env).streamEnd = .aborted ∧
    (∀ ev ∈ ({ okEnv with
        streamEvents := [{ content := "par".data, done := false }]
        streamEnd := .aborted } : Env).streamEvents,
      ev.done = false ∧ truthyErr ev.error = false) ∧
    ((sendMessage { okEnv with
        streamEvents := [{ content := "par".data, done := false }]
        streamEnd := .aborted } ("hi".data) activeState).1.messages =
      activeState.messages ++ [{ role := .user, content := "hi".data },
        { role := .assistant, content := contentsJoin ({ okEnv with
            streamEvents := [{ content := "par".data, done := false }]
            streamEnd := .aborted } : Env).streamEvents }] ∧
    (sendMessage { okEnv with
        streamEvents := [{ content := "par".data, done := false }]
        streamEnd := .aborted } ("hi".data) activeState).1.isStreaming = false ∧
    (∀ c m, ExtCall.addMsg c m ∈ (sendMessage { okEnv with
        streamEvents := [{ content := "par".data, done := false }]
        streamEnd := .aborted } ("hi".data) activeState).2 →
      m = { role := .user, content := "hi".data })) :=
  ⟨by decide, by decide, rfl, by decide,
    cancellation_clean_silent _ ("hi".data) activeState activeState (some 1) []
      (by decide) (by decide) rfl (by decide)⟩

/-- Claim C6: image-command path — for input "/imagine a cat" with an
ensured conversation and a successful generation call, sendMessage inserts
and persists a user message with literal content "/imagine a cat", inserts
an assistant placeholder, and ends with a final assistant message whose
content starts with the image-caption marker and whose image equals the
generation response's image, which is persisted. -/
theorem imagine_success_path (env : Env) (st st1 : ChatState) (cid : Int)
    (tr1 : List ExtCall) (res : GenResponse)
    (hE : ensureConv env st = (some cid, st1, tr1))
    (hg : env.genResult ("a cat".data) = .ok res) :
    (sendMessage env ("/imagine a cat".data) st).1.messages =
      st1.messages ++ [{ role := .user, content := "/imagine a cat".data },
        { role := .assistant, content := imageCaption ("a cat".data),
          image := some res.image }] ∧
    (sendMessage env ("/imagine a cat".data) st).1.isStreaming = false ∧
    ExtCall.addMsg cid { role := .user, content := "/imagine a cat".data } ∈
      (sendMessage env ("/imagine a cat".data) st).2 ∧
    ExtCall.addMsg cid { role := .assistant, content := imageCaption ("a cat".data), image := some res.image } ∈ (sendMessage env ("/imagine a cat".data) st).2 ∧
    ("✨ Here's your image for:".data).isPrefixOf (imageCaption ("a cat".data)) = true := by
  have hcid1 : st1.currentConversationId = some cid :=
    ensureConv_cid env st st1 cid tr1 hE
  have himg : isImageCommand ("/imagine a cat".data) = true := by decide
  have hpr : imaginePrompt ("/imagine a cat".data) = "a cat".data := by decide
  have hprne : ("a cat".data).isEmpty = false := by decide
  have hsend : sendMessage env ("/imagine a cat".data) st =
      ((imagineBody env ("/imagine a cat".data) ("a cat".data) st1).1,
        tr1 ++ (imagineBody env ("/imagine a cat".data) ("a cat".data) st1).2) := by
    simp [sendMessage, hE, himg, hpr, hprne]
  rw [hsend]
  refine ⟨?_, ?_, ?_, ?_, by decide⟩
  · simp only [imagineBody, hg, setIsStreaming, addMessage, saveMessage_messages,
      updateLastMessage, setLastMessageImage]
    rw [updateLastContent_concat, setLastImage_concat]
    simp
  · simp only [imagineBody, hg]
    simp [setIsStreaming]
  · simp only [imagineBody, hg]
    refine List.mem_append_right _ (List.mem_append_left _ (List.mem_append_left _ ?_))
    exact saveMessage_mem env _ _ cid (by simp [addMessage, hcid1])
  · simp only [imagineBody, hg]
    refine List.mem_append_right _ (List.mem_append_right _ ?_)
    exact saveMessage_mem env _ _ cid
      (by simp [setLastMessageImage, updateLastMessage, setIsStreaming, addMessage,
        saveMessage_cid, hcid1])

theorem imagine_success_path_witness :
    ensureConv okEnv activeState = (some 1, activeState, []) ∧
    okEnv.genResult ("a cat".data) = .ok { image := "IMG".data, prompt := "a cat".data } ∧
    ((sendMessage okEnv ("/imagine a cat".data) activeState).1.messages =
      activeState.messages ++ [{ role := .user, content := "/imagine a cat".data },
        { role := .assistant, content := imageCaption ("a cat".data),
          image := some "IMG".data }] ∧
    (sendMessage okEnv ("/imagine a cat".data) activeState).1.isStreaming = false ∧
    ExtCall.addMsg 1 { role := .user, content := "/imagine a cat".data } ∈
      (sendMessage okEnv ("/imagine a cat".data) activeState).2 ∧
    ExtCall.addMsg 1 { role := .assistant, content := imageCaption ("a cat".data), image := some "IMG".data } ∈ (sendMessage okEnv ("/imagine a cat".data) activeState).2 ∧
    ("✨ Here's your image for:".data).isPrefixOf (imageCaption ("a cat".data)) = true) :=
  ⟨by decide, rfl,
    imagine_success_path okEnv activeState activeState 1 []
      { image := "IMG".data, prompt := "a cat".data } (by decide) rfl⟩

theorem textBody_null (env : Env) (content : List Char) (st1 : ChatState)
    (hn : st1.currentConversationId = none) :
    (textBody env content none st1).2 =
      [.streamReq (st1.messages ++ [{ role := .user, content := content }]) none] ∧
    (∃ t, (textBody env content none st1).1.messages =
      st1.messages ++ [{ role := .user, content := content },
        { role := .assistant, content := t }]) ∧
    (textBody env content none st1).1.isStreaming = false := by
  have hsv : saveMessage env (addMessage st1 { role := .user, content := content })
      { role := .user, content := content } =
      (addMessage st1 { role := .user, content := content }, []) :=
    saveMessage_none _ _ _ (by simp [addMessage, hn])
  simp only [textBody, hsv]
  rcases hcs : consumeStream env.streamEvents env.streamEnd
      (setIsStreaming (addMessage (addMessage st1 { role := .user, content := content })
        { role := .assistant, content := [] }) true) with ⟨rst, rfull, rexit⟩
  have hrs := consumeStream_state env.streamEvents env.streamEnd
      (setIsStreaming (addMessage (addMessage st1 { role := .user, content := content })
        { role := .assistant, content := [] }) true)
  rw [hcs] at hrs
  dsimp only at hrs
  have hrcid : rst.currentConversationId = none := by
    rw [hrs]
    simp [setIsStreaming, addMessage, hn]
  have hmsg : rst.messages =
      appendLastContent ((st1.messages ++ [{ role := .user, content := content }]) ++
        [{ role := .assistant, content := [] }]) rfull := by
    rw [hrs]
    simp [setIsStreaming, addMessage]
  have hreq : (setIsStreaming (addMessage (addMessage st1
        { role := .user, content := content })
        { role := .assistant, content := [] }) true).messages.dropLast =
      st1.messages ++ [{ role := .user, content := content }] := by
    simp [setIsStreaming, addMessage]
  cases rexit with
  | ok =>
    by_cases hf : rfull.isEmpty
    · simp only [hf, if_true, hreq]
      refine ⟨by simp, ⟨rfull, ?_⟩, by simp [setIsStreaming]⟩
      simp only [setIsStreaming]
      rw [hmsg, appendLastContent_concat]
      simp
    · simp only [hf, Bool.false_eq_true, if_false, hreq,
        saveMessage_none env rst { role := .assistant, content := rfull } hrcid]
      refine ⟨by simp, ⟨rfull, ?_⟩, by simp [setIsStreaming]⟩
      simp only [setIsStreaming]
      rw [hmsg, appendLastContent_concat]
      simp
  | aborted =>
    simp only [hreq]
    refine ⟨by simp, ⟨rfull, ?_⟩, by simp [setIsStreaming]⟩
    simp only [setIsStreaming]
    rw [hmsg, appendLastContent_concat]
    simp
  | errored =>
    simp only [hreq]
    refine ⟨by simp, ⟨rfull ++ errNoticeText, ?_⟩, by simp [setIsStreaming]⟩
    simp only [setIsStreaming, appendToLastMessage]
    rw [hmsg, appendLastContent_append, appendLastContent_concat]
    simp

/-- Claim C7: best-effort turn on conversation-creation failure — with no
active conversation and a failing createConversation, sendMessage does not
propagate the failure (it is a total function of the oracle): the text turn
still proceeds with a null conversation id, the user message and the
assistant placeholder are inserted locally, the stream request carries a
null conversation identifier, and no message-persistence call is ever made
(every saveMessage call is a silent no-op). -/
theorem best_effort_null_conversation (env : Env) (content : List Char)
    (st : ChatState)
    (hnone : st.currentConversationId = none)
    (hcf : env.createResult = .error ())
    (himg : isImageCommand content = false) :
    (∀ c m, ExtCall.addMsg c m ∉ (sendMessage env content st).2) ∧
    ExtCall.streamReq (st.messages ++ [{ role := .user, content := content }]) none ∈
      (sendMessage env content st).2 ∧
    (∃ t, (sendMessage env content st).1.messages =
      st.messages ++ [{ role := .user, content := content },
        { role := .assistant, content := t }]) ∧
    (sendMessage env content st).1.isStreaming = false := by
  have hE : ensureConv env st = (none, st, [.createConv]) :=
    ensureConv_fail env st hnone hcf
  have hsend : sendMessage env content st =
      ((textBody env content none st).1,
        [.createConv] ++ (textBody env content none st).2) := by
    simp [sendMessage, hE, himg]
  obtain ⟨htr, hmm, hstr⟩ := textBody_null env content st hnone
  rw [hsend]
  refine ⟨?_, ?_, hmm, hstr⟩
  · intro c m hm
    rw [htr] at hm
    simp at hm
  · rw [htr]
    simp

theorem best_effort_null_conversation_witness :
    emptyState.currentConversationId = none ∧
    ({ okEnv with createResult := .error () } : Env).createResult = .error () ∧
    isImageCommand ("hi".data) = false ∧
    ((∀ c m, ExtCall.addMsg c m ∉
      (sendMessage { okEnv with createResult := .error () } ("hi".data) emptyState).2) ∧
    ExtCall.streamReq (emptyState.messages ++ [{ role := .user, content := "hi".data }]) none ∈
      (sendMessage { okEnv with createResult := .error () } ("hi".data) emptyState).2 ∧
    (∃ t, (sendMessage { okEnv with createResult := .error () } ("hi".data) emptyState).1.messages =
      emptyState.messages ++ [{ role := .user, content := "hi".data },
        { role := .assistant, content := t }]) ∧
    (sendMessage { okEnv with createResult := .error () } ("hi".data) emptyState).1.isStreaming = false) :=
  ⟨rfl, rfl, by decide,
    best_effort_null_conversation { okEnv with createResult := .error () }
      ("hi".data) emptyState rfl rfl (by decide)⟩
